import Mathlib

/-!
Shallow embedding of the ternarybob/ravendb wrapper library (Go).

The embedded functions follow `src/services/crud_operations.go`,
`src/services/collection_service.go` and `src/interfaces/ravendb_service.go`.
The free generic function `Query[T]` and the method
`CollectionService[T].Query` are textually identical in the source; they are
embedded once as `runQuery` below (likewise for the QueryByField / QueryByRange /
Search pairs).

External effects are modelled explicitly:
* a Go `map[string]V` is an association list with overwrite-on-insert
  (`mapInsert` / `mapLookup` / `mapRemove`);
* the document store reached through a session is a map from id to document;
* the rows the RavenDB engine returns for a raw query are an input `raw`
  (a list of possibly-nil pointers `Option T`, as in the Go `[]*T` result);
* in-place mutation of the caller-supplied `*QueryOptions` is modelled by
  returning the final state of the options record.

Go `int` is modelled as `Int`; `interface{}` parameter values are a type
parameter `P`.
-/

namespace Raven

/-- Association-list model of a Go map: lookup of the first binding of a key. -/
def mapLookup {V : Type} (m : List (String × V)) (k : String) : Option V :=
  match m with
  | [] => none
  | p :: rest => if p.1 = k then some p.2 else mapLookup rest k

/-- Association-list model of Go map assignment `m[k] = v`:
overwrite the first binding of `k`, or append a new binding. -/
def mapInsert {V : Type} (m : List (String × V)) (k : String) (v : V) :
    List (String × V) :=
  match m with
  | [] => [(k, v)]
  | p :: rest => if p.1 = k then (k, v) :: rest else p :: mapInsert rest k v

/-- Association-list model of Go map deletion: drop every binding of `k`. -/
def mapRemove {V : Type} (m : List (String × V)) (k : String) :
    List (String × V) :=
  m.filter (fun p => !(p.1 == k))

/-- Embeds `interfaces.QueryOptions` (src/interfaces/ravendb_service.go).
`Parameters` is `none` for a nil Go map.  `P` stands for the dynamic
`interface{}` type of parameter values. -/
structure QueryOptions (P : Type) where
  Skip : Int := 0
  Take : Int := 0
  OrderBy : String := ""
  OrderDesc : Bool := false
  WhereClause : String := ""
  Parameters : Option (List (String × P)) := none
  IncludeTotal : Bool := false
deriving Repr

/-- Embeds `interfaces.GenericQueryResult[T]`. -/
structure GenericQueryResult (T : Type) where
  Results : List T
  TotalCount : Int
  Skip : Int
  Take : Int
  HasMore : Bool
deriving Repr

/-- The two `Take` normalization steps at the top of `Query`
(crud_operations.go lines 218-223; identical in collection_service.go
lines 206-211): `if options.Take <= 0 { options.Take = 25 }` then
`if options.Take > 1024 { options.Take = 1024 }`. -/
def normTake (t : Int) : Int :=
  let t1 := if t ≤ 0 then 25 else t
  if t1 > 1024 then 1024 else t1

/-- The RQL string assembly of `Query` (crud_operations.go lines 225-251,
identical in collection_service.go lines 213-241), applied to the options
record after `Take` normalization.  Each `if` mirrors one conditional
`WriteString` on the Go `strings.Builder`. -/
def buildRQL {P : Type} (collection : String) (o : QueryOptions P) : String :=
  let q := "from @all_docs where @metadata.\x27@collection\x27 = \x27" ++
    collection ++ "\x27"
  let q := if o.WhereClause ≠ "" then q ++ " AND (" ++ o.WhereClause ++ ")" else q
  let q := if o.OrderBy ≠ "" then
      (if o.OrderDesc then q ++ " ORDER BY " ++ o.OrderBy ++ " DESC"
       else q ++ " ORDER BY " ++ o.OrderBy)
    else q
  if o.Skip > 0 ∨ o.Take > 0 then
    let skip := o.Skip
    let take := if o.Take ≤ 0 then (25 : Int) else o.Take
    q ++ " LIMIT " ++ toString skip ++ ", " ++ toString take
  else q

/-- Everything `Query` leaves behind: the final state of the (mutated)
options record, the RQL text handed to `RawQuery`, and the returned
result envelope. -/
structure QueryRun (P T : Type) where
  finalOptions : QueryOptions P
  queryString : String
  result : GenericQueryResult T

/-- Embeds the free function `Query[T]` (crud_operations.go lines 206-288)
and the identical `CollectionService[T].Query` (collection_service.go lines
194-278).  `options = none` models a nil `*QueryOptions`; `raw` is the
`[]*T` slice the engine returns for the built query; `zero` is the Go zero
value of `T` used when a nil result pointer is dereferenced. -/
def runQuery {P T : Type} (collection : String) (options : Option (QueryOptions P))
    (raw : List (Option T)) (zero : T) : QueryRun P T :=
  let o := options.getD {}
  let o := { o with Take := normTake o.Take }
  let queryStr := buildRQL collection o
  let finalResults := raw.map (fun r =>
    match r with
    | some v => v
    | none => zero)
  let totalCount : Int := finalResults.length
  let hasMore := decide (o.Take > 0) && decide (totalCount = o.Take)
  { finalOptions := o
    queryString := queryStr
    result :=
      { Results := finalResults
        TotalCount := totalCount
        Skip := o.Skip
        Take := o.Take
        HasMore := hasMore } }

/-- The spec clause for the produced query text, written from the words of
spec.md section 6: `from @all_docs where @metadata.'@collection' = '<name>'
[AND (<where>)] [ORDER BY <field> [DESC]] LIMIT <skip>, <take>`, where the
take is the normalized one and the LIMIT clause is unconditionally present.
Used only to be compared with `buildRQL`. -/
def specQueryString {P : Type} (collection : String) (o : QueryOptions P) :
    String :=
  "from @all_docs where @metadata.\x27@collection\x27 = \x27" ++ collection ++
    "\x27" ++
  (if o.WhereClause ≠ "" then " AND (" ++ o.WhereClause ++ ")" else "") ++
  (if o.OrderBy ≠ "" then
      " ORDER BY " ++ o.OrderBy ++ (if o.OrderDesc then " DESC" else "")
    else "") ++
  " LIMIT " ++ toString o.Skip ++ ", " ++ toString (normTake o.Take)

/-- Embeds `QueryAll[T]` (crud_operations.go lines 291-298) and the identical
`CollectionService[T].QueryAll` (collection_service.go lines 281-288):
`Query` with fresh options `Skip = 0, Take = 1024`. -/
def queryAll {P T : Type} (collection : String) (raw : List (Option T))
    (zero : T) : QueryRun P T :=
  runQuery collection (some { Skip := 0, Take := 1024 }) raw zero

/-- Embeds `CollectionService[T].Count` (collection_service.go lines 370-376):
run `QueryAll` and return the `TotalCount` of its result. -/
def countColl {T : Type} (collection : String) (raw : List (Option T))
    (zero : T) : Int :=
  ((queryAll (P := Unit) collection raw zero).result).TotalCount

/-- Lookup in the `Parameters` field of an options record; a nil map holds
no bindings. -/
def paramsLookup {P : Type} (o : QueryOptions P) (k : String) : Option P :=
  match o.Parameters with
  | none => none
  | some m => mapLookup m k

/-- The caller-visible effect `Query` has on a non-nil options record:
only `Take` is rewritten, to its normalized value. -/
def normalizeOpts {P : Type} (o : QueryOptions P) : QueryOptions P :=
  { o with Take := normTake o.Take }

/-- The options mutation performed by `QueryByField[T]` (crud_operations.go
lines 301-314) and the identical `CollectionService[T].QueryByField`
(collection_service.go lines 291-304) before delegating to `Query`:
overwrite `WhereClause` with `"<field> = $value"`, allocate `Parameters`
if nil, and bind `value`. -/
def queryByFieldOpts {P : Type} (fieldName : String) (fieldValue : P)
    (options : Option (QueryOptions P)) : QueryOptions P :=
  let o := options.getD {}
  let o := { o with WhereClause := fieldName ++ " = $value" }
  let ps := o.Parameters.getD []
  { o with Parameters := some (mapInsert ps "value" fieldValue) }

/-- `QueryByField[T]` itself: mutate the options, then delegate to `Query`. -/
def queryByField {P T : Type} (collection fieldName : String) (fieldValue : P)
    (options : Option (QueryOptions P)) (raw : List (Option T)) (zero : T) :
    QueryRun P T :=
  runQuery collection (some (queryByFieldOpts fieldName fieldValue options))
    raw zero

/-- The options mutation performed by `QueryByRange[T]` (crud_operations.go
lines 317-331) and the identical `CollectionService[T].QueryByRange`
(collection_service.go lines 307-321): overwrite `WhereClause` with
`"<field> >= $minValue AND <field> <= $maxValue"`, allocate `Parameters`
if nil, and bind `minValue` then `maxValue`. -/
def queryByRangeOpts {P : Type} (fieldName : String) (minValue maxValue : P)
    (options : Option (QueryOptions P)) : QueryOptions P :=
  let o := options.getD {}
  let o := { o with
    WhereClause :=
      fieldName ++ " >= $minValue AND " ++ fieldName ++ " <= $maxValue" }
  let ps := o.Parameters.getD []
  let ps := mapInsert ps "minValue" minValue
  let ps := mapInsert ps "maxValue" maxValue
  { o with Parameters := some ps }

/-- `QueryByRange[T]` itself: mutate the options, then delegate to `Query`. -/
def queryByRange {P T : Type} (collection fieldName : String)
    (minValue maxValue : P) (options : Option (QueryOptions P))
    (raw : List (Option T)) (zero : T) : QueryRun P T :=
  runQuery collection
    (some (queryByRangeOpts fieldName minValue maxValue options)) raw zero

/-- The `whereConditions` list built by the loop of `Search[T]`
(crud_operations.go lines 345-349): one `search(<field>, $searchTerm<i>)`
predicate per field, `i` counting from the given start index. -/
def searchCondsAux (i : Nat) (searchFields : List String) : List String :=
  match searchFields with
  | [] => []
  | f :: fs =>
    ("search(" ++ f ++ ", $searchTerm" ++ toString i ++ ")") ::
      searchCondsAux (i + 1) fs

/-- The parameter insertions performed by the same loop of `Search[T]`:
bind `searchTerm<i>` to the search term for each field, `i` counting from
the given start index. -/
def searchParamsAux {P : Type} (searchTerm : P) (i : Nat)
    (searchFields : List String) (m : List (String × P)) :
    List (String × P) :=
  match searchFields with
  | [] => m
  | _ :: fs =>
    searchParamsAux searchTerm (i + 1) fs
      (mapInsert m ("searchTerm" ++ toString i) searchTerm)

/-- The options mutation performed by `Search[T]` (crud_operations.go lines
334-356) and the identical `CollectionService[T].Search` (collection_service.go
lines 324-346): allocate `Parameters` if nil, bind one `searchTerm<i>` per
field, and when at least one condition was built overwrite `WhereClause`
with the parenthesised OR of the conditions. -/
def searchOpts {P : Type} (searchTerm : P) (searchFields : List String)
    (options : Option (QueryOptions P)) : QueryOptions P :=
  let o := options.getD {}
  let ps := o.Parameters.getD []
  let ps := searchParamsAux searchTerm 0 searchFields ps
  let conds := searchCondsAux 0 searchFields
  let o := { o with Parameters := some ps }
  if conds.length > 0 then
    { o with WhereClause := "(" ++ String.intercalate " OR " conds ++ ")" }
  else o

/-- `Search[T]` itself: mutate the options, then delegate to `Query`. -/
def search {P T : Type} (collection : String) (searchTerm : P)
    (searchFields : List String) (options : Option (QueryOptions P))
    (raw : List (Option T)) (zero : T) : QueryRun P T :=
  runQuery collection (some (searchOpts searchTerm searchFields options))
    raw zero

/-- The spec clause for the search predicates, written from the words of
spec.md section 4.4: for each field in the supplied list a
`search(field, $searchTermN)` predicate, `N` being the position of the
field.  Used only to be compared with `searchCondsAux`. -/
def specSearchConds (searchFields : List String) : List String :=
  searchFields.enum.map
    (fun p => "search(" ++ p.2 ++ ", $searchTerm" ++ toString p.1 ++ ")")

/-- Embeds `DatabaseService.Update` (crud_operations.go lines 100-131): the
per-key Go map assignments `document[key] = value` over the loaded field
map, iterated over the updates. -/
def applyUpdates {V : Type} (doc updates : List (String × V)) :
    List (String × V) :=
  updates.foldl (fun d p => mapInsert d p.1 p.2) doc

/-- Embeds `DatabaseService.Update` (crud_operations.go lines 100-131) on a
store modelled as a map from id to field map: load the document, fail with
a not-found error when it is nil, otherwise apply the updates and store the
merged map back under the same id. -/
def dbUpdate {V : Type} (db : List (String × List (String × V))) (id : String)
    (updates : List (String × V)) :
    Except String (List (String × List (String × V))) :=
  match mapLookup db id with
  | none => Except.error ("document with ID " ++ id ++ " not found")
  | some doc => Except.ok (mapInsert db id (applyUpdates doc updates))

/-- Embeds `CollectionService[T].Delete` (collection_service.go lines
142-163) on a store modelled as a map from id to document: load first,
fail with a not-found error when the document is nil, otherwise delete it
and commit. -/
def collDelete {T : Type} (db : List (String × T)) (id : String) :
    Except String (List (String × T)) :=
  match mapLookup db id with
  | none => Except.error ("document with ID " ++ id ++ " not found")
  | some _ => Except.ok (mapRemove db id)

/-- Embeds `CollectionService[T].DeleteMultiple` (collection_service.go
lines 166-189): load each id, delete it when present, silently skip it when
absent, and commit once at the end. -/
def collDeleteMultiple {T : Type} (db : List (String × T))
    (ids : List String) : Except String (List (String × T)) :=
  Except.ok (ids.foldl
    (fun st i =>
      match mapLookup st i with
      | none => st
      | some _ => mapRemove st i)
    db)

/-! Helper lemmas about the map model and the embedded operations. -/

theorem mapLookup_mapInsert {V : Type} (m : List (String × V)) (k k2 : String)
    (v : V) :
    mapLookup (mapInsert m k v) k2 = if k2 = k then some v else mapLookup m k2 := by
  induction m with
  | nil =>
    by_cases h : k2 = k
    · simp [mapInsert, mapLookup, h]
    · simp [mapInsert, mapLookup, h, Ne.symm h]
  | cons p rest ih =>
    by_cases hp : p.1 = k
    · by_cases hk : k2 = k
      · subst hk
        simp [mapInsert, mapLookup, hp]
      · simp [mapInsert, mapLookup, hp, hk, Ne.symm hk]
    · by_cases hk : k2 = k
      · subst hk
        simp [mapInsert, mapLookup, hp, ih]
      · by_cases hp2 : p.1 = k2
        · simp [mapInsert, mapLookup, hp, hk, hp2]
        · simp [mapInsert, mapLookup, hp, hk, hp2, ih]

theorem mapLookup_mapRemove {V : Type} (m : List (String × V)) (k k2 : String) :
    mapLookup (mapRemove m k) k2 = if k2 = k then none else mapLookup m k2 := by
  induction m with
  | nil => simp [mapRemove, mapLookup]
  | cons p rest ih =>
    simp only [mapRemove] at ih ⊢
    rw [List.filter_cons]
    by_cases hp : p.1 = k
    · rw [if_neg (by simp [hp])]
      by_cases hk : k2 = k
      · subst hk
        simp [ih]
      · simp [ih, hk, mapLookup, hp, Ne.symm hk]
    · rw [if_pos (by simp [hp])]
      by_cases hk : k2 = k
      · subst hk
        simp [mapLookup, hp, ih]
      · by_cases hp2 : p.1 = k2
        · simp [mapLookup, hp2, hk]
        · simp [mapLookup, hp2, hk, ih]

theorem normTake_pos (t : Int) : 0 < normTake t := by
  simp only [normTake]
  by_cases h1 : t ≤ 0
  · rw [if_pos h1]
    split <;> omega
  · rw [if_neg h1]
    split <;> omega

theorem normTake_le (t : Int) : normTake t ≤ 1024 := by
  simp only [normTake]
  by_cases h1 : t ≤ 0
  · rw [if_pos h1]
    split <;> omega
  · rw [if_neg h1]
    split <;> omega

theorem normTake_eq (t : Int) :
    normTake t = if t ≤ 0 then 25 else min t 1024 := by
  simp only [normTake]
  by_cases h1 : t ≤ 0
  · rw [if_pos h1, if_pos h1]
    split <;> omega
  · rw [if_neg h1, if_neg h1]
    split <;> omega

theorem runQuery_finalOptions {P T : Type} (c : String) (o : QueryOptions P)
    (raw : List (Option T)) (z : T) :
    (runQuery c (some o) raw z).finalOptions = normalizeOpts o := rfl

theorem runQuery_queryString {P T : Type} (c : String) (o : QueryOptions P)
    (raw : List (Option T)) (z : T) :
    (runQuery c (some o) raw z).queryString = buildRQL c (normalizeOpts o) := rfl

theorem runQuery_totalCount {P T : Type} (c : String) (o : QueryOptions P)
    (raw : List (Option T)) (z : T) :
    (runQuery c (some o) raw z).result.TotalCount = (raw.length : Int) := by
  simp [runQuery]

theorem runQuery_results_length {P T : Type} (c : String) (o : QueryOptions P)
    (raw : List (Option T)) (z : T) :
    (runQuery c (some o) raw z).result.Results.length = raw.length := by
  simp [runQuery]

theorem normTake_of_nonpos (t : Int) (h : t ≤ 0) : normTake t = 25 := by
  simp only [normTake]
  rw [if_pos h]
  norm_num

theorem normTake_of_gt (t : Int) (h : 1024 < t) : normTake t = 1024 := by
  simp only [normTake]
  rw [if_neg (by omega : ¬ t ≤ 0), if_pos (by omega : t > 1024)]

theorem mapLookup_eq_none_of_not_mem {V : Type} (m : List (String × V))
    (k : String) (h : k ∉ m.map Prod.fst) : mapLookup m k = none := by
  induction m with
  | nil => simp [mapLookup]
  | cons p rest ih =>
    simp only [List.map_cons, List.mem_cons] at h
    push_neg at h
    have hp : ¬ p.1 = k := fun hh => h.1 hh.symm
    simp [mapLookup, ih h.2, hp]

theorem applyUpdates_lookup {V : Type} (updates doc : List (String × V))
    (h : (updates.map Prod.fst).Nodup) (k : String) :
    mapLookup (applyUpdates doc updates) k =
      match mapLookup updates k with
      | some v => some v
      | none => mapLookup doc k := by
  induction updates generalizing doc with
  | nil => simp [applyUpdates, mapLookup]
  | cons p rest ih =>
    simp only [List.map_cons, List.nodup_cons] at h
    have hstep : applyUpdates doc (p :: rest) =
        applyUpdates (mapInsert doc p.1 p.2) rest := rfl
    rw [hstep, ih _ h.2]
    by_cases hk : k = p.1
    · have h1 : mapLookup rest k = none :=
        mapLookup_eq_none_of_not_mem rest k (by rw [hk]; exact h.1)
      have h2 : mapLookup (p :: rest) k = some p.2 := by
        simp [mapLookup, hk.symm]
      simp only [h1, h2]
      rw [mapLookup_mapInsert, if_pos hk]
    · have h2 : mapLookup (p :: rest) k = mapLookup rest k := by
        have hp : ¬ p.1 = k := fun hh => hk hh.symm
        simp [mapLookup, hp]
      rw [h2, mapLookup_mapInsert, if_neg hk]

theorem deleteFold_lookup {T : Type} (ids : List String)
    (db : List (String × T)) (x : String) :
    mapLookup
      (ids.foldl
        (fun st i =>
          match mapLookup st i with
          | none => st
          | some _ => mapRemove st i)
        db) x =
      if x ∈ ids then none else mapLookup db x := by
  induction ids generalizing db with
  | nil => simp
  | cons i rest ih =>
    have hstep : ∀ (d : List (String × T)),
        mapLookup
          (match mapLookup d i with
           | none => d
           | some _ => mapRemove d i) x =
          if x = i then none else mapLookup d x := by
      intro d
      cases h : mapLookup d i with
      | none =>
        by_cases hx : x = i
        · subst hx
          simp [h]
        · simp [hx]
      | some v => rw [mapLookup_mapRemove]
    simp only [List.foldl_cons]
    rw [ih, hstep]
    by_cases hxi : x = i
    · subst hxi
      by_cases hr : x ∈ rest <;> simp [hr]
    · by_cases hr : x ∈ rest <;> simp [hr, hxi]

theorem searchCondsAux_enumFrom (fs : List String) (i : Nat) :
    searchCondsAux i fs =
      (List.enumFrom i fs).map
        (fun p => "search(" ++ p.2 ++ ", $searchTerm" ++ toString p.1 ++ ")") := by
  induction fs generalizing i with
  | nil => simp [searchCondsAux]
  | cons f fs ih => simp [searchCondsAux, List.enumFrom, ih]

theorem searchCondsAux_length (fs : List String) (i : Nat) :
    (searchCondsAux i fs).length = fs.length := by
  induction fs generalizing i with
  | nil => simp [searchCondsAux]
  | cons f fs ih => simp [searchCondsAux, ih]

theorem searchParamsAux_lookup_preserve {P : Type} (t : P) (fs : List String)
    (i : Nat) (m : List (String × P)) (k : String)
    (h : mapLookup m k = some t) :
    mapLookup (searchParamsAux t i fs m) k = some t := by
  induction fs generalizing i m with
  | nil => simpa [searchParamsAux] using h
  | cons f fs ih =>
    simp only [searchParamsAux]
    apply ih
    rw [mapLookup_mapInsert]
    by_cases hk : k = "searchTerm" ++ toString i
    · rw [if_pos hk]
    · rw [if_neg hk]
      exact h

theorem searchParamsAux_lookup {P : Type} (t : P) (fs : List String)
    (i j : Nat) (m : List (String × P)) (hj : j < fs.length) :
    mapLookup (searchParamsAux t i fs m) ("searchTerm" ++ toString (i + j)) =
      some t := by
  induction fs generalizing i j m with
  | nil => simp at hj
  | cons f fs ih =>
    cases j with
    | zero =>
      simp only [Nat.add_zero, searchParamsAux]
      apply searchParamsAux_lookup_preserve
      rw [mapLookup_mapInsert, if_pos rfl]
    | succ j =>
      have : i + (j + 1) = (i + 1) + j := by omega
      rw [this]
      simp only [searchParamsAux]
      exact ih (i + 1) j _ (by simpa using hj)

theorem buildRQL_normalized {P : Type} (c : String) (o : QueryOptions P) :
    buildRQL c (normalizeOpts o) = specQueryString c o := by
  have hpos := normTake_pos o.Take
  simp only [buildRQL, specQueryString, normalizeOpts]
  rw [if_pos (Or.inr hpos)]
  rw [if_neg (by omega : ¬ normTake o.Take ≤ 0)]
  by_cases hw : o.WhereClause = "" <;>
    [(have hw2 : ¬(o.WhereClause ≠ "") := by simp [hw]
      rw [if_neg hw2, if_neg hw2]);
     (rw [if_pos hw, if_pos hw])] <;>
  (by_cases hob : o.OrderBy = ""
   · have hob2 : ¬(o.OrderBy ≠ "") := by simp [hob]
     rw [if_neg hob2, if_neg hob2]
     simp only [String.append_assoc, String.append_empty]
   · rw [if_pos hob, if_pos hob]
     cases hod : o.OrderDesc
     · have hd2 : ¬(false = true) := by simp
       rw [if_neg hd2, if_neg hd2]
       simp only [String.append_assoc, String.append_empty]
     · have hd2 : (true = true) := rfl
       rw [if_pos hd2, if_pos hd2]
       simp only [String.append_assoc, String.append_empty])

theorem specQueryString_plain {P : Type} (c : String) (o : QueryOptions P)
    (hw : o.WhereClause = "") (hob : o.OrderBy = "") :
    specQueryString c o =
      "from @all_docs where @metadata.\x27@collection\x27 = \x27" ++ c ++
        "\x27" ++ " LIMIT " ++ toString o.Skip ++ ", " ++
        toString (normTake o.Take) := by
  simp only [specQueryString]
  have hw2 : ¬(o.WhereClause ≠ "") := by simp [hw]
  have hob2 : ¬(o.OrderBy ≠ "") := by simp [hob]
  rw [if_neg hw2, if_neg hob2]
  simp only [String.append_assoc, String.append_empty]

theorem searchOpts_fields_frame {P : Type} (t : P) (fields : List String)
    (o : QueryOptions P) :
    (searchOpts t fields (some o)).Skip = o.Skip ∧
    (searchOpts t fields (some o)).OrderBy = o.OrderBy ∧
    (searchOpts t fields (some o)).OrderDesc = o.OrderDesc ∧
    (searchOpts t fields (some o)).IncludeTotal = o.IncludeTotal ∧
    (searchOpts t fields (some o)).Parameters.isSome = true := by
  simp only [searchOpts]
  split <;> exact ⟨rfl, rfl, rfl, rfl, rfl⟩

/-! Claim theorems. -/

/-- C1: in `Query` (free function and `CollectionService.Query` alike, both
embedded as `runQuery`) the effective `Take` used for the query is the
normalized one: 25 when the supplied `Take` is at most 0 and
`min(supplied, 1024)` otherwise; a request with `Take = 5000` produces
exactly the same run (same query string, same final options, same result
envelope) as a request with `Take = 1024`. -/
theorem claim_C1_take_normalization :
    (∀ t : Int, normTake t = if t ≤ 0 then 25 else min t 1024) ∧
    (∀ (P T : Type) (c : String) (o : QueryOptions P) (raw : List (Option T))
      (z : T),
      (runQuery c (some o) raw z).finalOptions.Take = normTake o.Take) ∧
    (∀ (P T : Type) (c : String) (o : QueryOptions P) (raw : List (Option T))
      (z : T),
      runQuery c (some { o with Take := 5000 }) raw z =
        runQuery c (some { o with Take := 1024 }) raw z) := by
  refine ⟨normTake_eq, fun P T c o raw z => rfl, fun P T c o raw z => ?_⟩
  have h : normTake 5000 = normTake 1024 := by decide
  simp [runQuery, h]

/-- C2 counterexample: the claim asserts the LIMIT clause is always present
"because Take is normalized to at least 25 before this step"; but a supplied
`Take = 5` is left at 5 by the normalization, which is below 25. -/
theorem claim_C2_counterexample :
    (runQuery (P := Unit) "users" (some { Take := 5 })
      ([] : List (Option Nat)) 0).finalOptions.Take = 5 ∧
    ¬ (25 ≤ (runQuery (P := Unit) "users" (some { Take := 5 })
      ([] : List (Option Nat)) 0).finalOptions.Take) := by
  exact ⟨rfl, by decide⟩

/-- C2 (amended): the query string built by `Query` is exactly
`from @all_docs where @metadata.'@collection' = '<name>'`, followed by
` AND (<where>)` iff `WhereClause` is non-empty, followed by
` ORDER BY <field>` (with ` DESC` iff `OrderDesc`) iff `OrderBy` is
non-empty, followed by ` LIMIT <skip>, <take>` with the normalized take
(`specQueryString` spells out that shape); the LIMIT clause is present on
every query because the normalized `Take` is always positive (it is at
least 25 only when the supplied `Take` was ≤ 0).  A nil options pointer
behaves like the zero options record. -/
theorem claim_C2_query_string :
    ∀ (P T : Type) (c : String) (o : QueryOptions P) (raw : List (Option T))
      (z : T),
      (runQuery c (some o) raw z).queryString = specQueryString c o ∧
      (runQuery (P := P) c none raw z).queryString =
        specQueryString c ({} : QueryOptions P) ∧
      0 < normTake o.Take := by
  intro P T c o raw z
  exact ⟨buildRQL_normalized c o, buildRQL_normalized c {}, normTake_pos o.Take⟩

/-- C3: the `HasMore` flag of a query result is true exactly when the
normalized `Take` is positive and the number of returned rows equals that
`Take`; it is a count comparison, not a look-ahead. -/
theorem claim_C3_hasMore :
    ∀ (P T : Type) (c : String) (o : QueryOptions P) (raw : List (Option T))
      (z : T),
      (runQuery c (some o) raw z).result.HasMore = true ↔
        (0 < normTake o.Take ∧
          ((runQuery c (some o) raw z).result.Results.length : Int) =
            normTake o.Take) := by
  intro P T c o raw z
  simp [runQuery]

/-- C3 witness: with a supplied `Take = 2` and exactly 2 returned rows the
flag is true even though nothing guarantees further pages. -/
theorem claim_C3_hasMore_witness :
    (runQuery (P := Unit) "users" (some { Take := 2 })
      ([some 1, some 2] : List (Option Nat)) 0).result.HasMore = true := by
  exact (claim_C3_hasMore Unit Nat "users" { Take := 2 } [some 1, some 2]
    0).mpr (by decide)

/-- C4: `TotalCount` always equals the length of the returned page, and
`CollectionService.Count` returns the length of the results of `QueryAll`
(Skip = 0, Take = 1024), hence it cannot exceed 1024 whenever the engine
honors the emitted LIMIT clause (returns at most 1024 rows). -/
theorem claim_C4_totalCount_count :
    ∀ (P T : Type) (c : String) (o : QueryOptions P) (raw : List (Option T))
      (z : T),
      (runQuery c (some o) raw z).result.TotalCount =
        ((runQuery c (some o) raw z).result.Results.length : Int) ∧
      countColl c raw z =
        ((queryAll (P := Unit) c raw z).result.Results.length : Int) ∧
      countColl c raw z = (raw.length : Int) ∧
      ((raw.length : Int) ≤ 1024 → countColl c raw z ≤ 1024) := by
  intro P T c o raw z
  refine ⟨by simp [runQuery], by simp [countColl, queryAll, runQuery], ?_, ?_⟩
  · simp [countColl, queryAll, runQuery]
  · intro h
    simpa [countColl, queryAll, runQuery] using h

/-- C4 witness: a three-row page gives `Count = 3 ≤ 1024`. -/
theorem claim_C4_totalCount_count_witness :
    countColl "users" ([some 1, none, some 3] : List (Option Nat)) 0 = 3 ∧
    countColl "users" ([some 1, none, some 3] : List (Option Nat)) 0 ≤ 1024 := by
  have h := claim_C4_totalCount_count Unit Nat "users" {}
    ([some 1, none, some 3] : List (Option Nat)) 0
  exact ⟨by rw [h.2.2.1]; decide, h.2.2.2 (by decide)⟩

/-- C5: `DatabaseService.Update` loads the document as a field map,
overwrites exactly the keys present in `updates` (every other field keeps
its loaded value), stores the merged map back under the same id (other
documents untouched), and returns a not-found error without storing
anything when the id is absent.  The key characterization assumes the
update keys are distinct, as they are for a Go map. -/
theorem claim_C5_update :
    ∀ (V : Type) (db : List (String × List (String × V))) (id : String)
      (updates : List (String × V)),
      (mapLookup db id = none →
        dbUpdate db id updates =
          Except.error ("document with ID " ++ id ++ " not found")) ∧
      (∀ doc, mapLookup db id = some doc →
        dbUpdate db id updates =
          Except.ok (mapInsert db id (applyUpdates doc updates)) ∧
        ((updates.map Prod.fst).Nodup →
          ∀ k, mapLookup (applyUpdates doc updates) k =
            match mapLookup updates k with
            | some v => some v
            | none => mapLookup doc k) ∧
        (∀ id2, ¬ id2 = id →
          mapLookup (mapInsert db id (applyUpdates doc updates)) id2 =
            mapLookup db id2)) := by
  intro V db id updates
  constructor
  · intro h
    simp [dbUpdate, h]
  · intro doc h
    refine ⟨by simp [dbUpdate, h], fun hn k => applyUpdates_lookup _ _ hn k,
      fun id2 h2 => ?_⟩
    rw [mapLookup_mapInsert, if_neg h2]

/-- C5 witness: storing `users/1 ↦ {name: John, age: 30}` and updating with
`{age: 31}` yields `{name: John, age: 31}` (merge, not replace); updating a
missing id fails with the not-found error. -/
theorem claim_C5_update_witness :
    dbUpdate [("users/1", [("name", "John"), ("age", "30")])] "users/2"
      [("age", "31")] =
      Except.error "document with ID users/2 not found" ∧
    mapLookup (applyUpdates [("name", "John"), ("age", "30")] [("age", "31")])
      "age" = some "31" ∧
    mapLookup (applyUpdates [("name", "John"), ("age", "30")] [("age", "31")])
      "name" = some "John" := by
  have h1 := claim_C5_update String
    [("users/1", [("name", "John"), ("age", "30")])] "users/2" [("age", "31")]
  have h2 := claim_C5_update String
    [("users/1", [("name", "John"), ("age", "30")])] "users/1" [("age", "31")]
  refine ⟨h1.1 (by decide), ?_, ?_⟩
  · have := ((h2.2 [("name", "John"), ("age", "30")] (by decide)).2.1
      (by decide)) "age"
    simpa using this
  · have := ((h2.2 [("name", "John"), ("age", "30")] (by decide)).2.1
      (by decide)) "name"
    simpa using this

/-- C6: `CollectionService.Delete` returns a not-found error when the id is
absent and otherwise removes exactly that document;
`CollectionService.DeleteMultiple` never fails because of absent ids: it
removes every listed id that exists and leaves everything else unchanged. -/
theorem claim_C6_delete :
    ∀ (T : Type) (db : List (String × T)) (id : String) (ids : List String),
      (mapLookup db id = none →
        collDelete db id =
          Except.error ("document with ID " ++ id ++ " not found")) ∧
      (∀ d, mapLookup db id = some d →
        collDelete db id = Except.ok (mapRemove db id) ∧
        ∀ x, mapLookup (mapRemove db id) x =
          if x = id then none else mapLookup db x) ∧
      (∃ db2, collDeleteMultiple db ids = Except.ok db2 ∧
        ∀ x, mapLookup db2 x = if x ∈ ids then none else mapLookup db x) := by
  intro T db id ids
  refine ⟨fun h => by simp [collDelete, h],
    fun d h => ⟨by simp [collDelete, h], fun x => mapLookup_mapRemove db id x⟩,
    ⟨_, rfl, fun x => deleteFold_lookup ids db x⟩⟩

/-- C6 witness: deleting the absent id `c` from `{a, b}` errors; deleting
`[a, zzz]` succeeds, removes `a`, keeps `b`, and is not bothered by the
absent `zzz`. -/
theorem claim_C6_delete_witness :
    collDelete [("a", 1), ("b", 2)] "c" =
      Except.error "document with ID c not found" ∧
    ∃ db2, collDeleteMultiple [("a", 1), ("b", 2)] ["a", "zzz"] =
        Except.ok db2 ∧
      mapLookup db2 "a" = none ∧ mapLookup db2 "b" = some 2 := by
  have h := claim_C6_delete Nat [("a", 1), ("b", 2)] "c" ["a", "zzz"]
  refine ⟨h.1 (by decide), ?_⟩
  obtain ⟨db2, hok, hl⟩ := h.2.2
  refine ⟨db2, hok, ?_, ?_⟩
  · rw [hl "a"]
    decide
  · rw [hl "b"]
    decide

/-- C7: `QueryByField` sets the WhereClause to exactly `<field> = $value`
and binds `Parameters["value"]` to the supplied value before delegating to
`Query`; `QueryByRange` sets it to exactly
`<field> >= $minValue AND <field> <= $maxValue` and binds both bounds. -/
theorem claim_C7_field_range :
    ∀ (P T : Type) (c f : String) (v lo hi : P) (o : Option (QueryOptions P))
      (raw : List (Option T)) (z : T),
      (queryByFieldOpts f v o).WhereClause = f ++ " = $value" ∧
      paramsLookup (queryByFieldOpts f v o) "value" = some v ∧
      queryByField c f v o raw z =
        runQuery c (some (queryByFieldOpts f v o)) raw z ∧
      (queryByRangeOpts f lo hi o).WhereClause =
        f ++ " >= $minValue AND " ++ f ++ " <= $maxValue" ∧
      paramsLookup (queryByRangeOpts f lo hi o) "minValue" = some lo ∧
      paramsLookup (queryByRangeOpts f lo hi o) "maxValue" = some hi ∧
      queryByRange c f lo hi o raw z =
        runQuery c (some (queryByRangeOpts f lo hi o)) raw z := by
  intro P T c f v lo hi o raw z
  refine ⟨rfl, ?_, rfl, rfl, ?_, ?_, rfl⟩
  · simp [paramsLookup, queryByFieldOpts, mapLookup_mapInsert]
  · simp only [paramsLookup, queryByRangeOpts]
    rw [mapLookup_mapInsert, if_neg (by decide), mapLookup_mapInsert,
      if_pos rfl]
  · simp only [paramsLookup, queryByRangeOpts]
    rw [mapLookup_mapInsert, if_pos rfl]

/-- C8: for a non-empty field list, `Search` sets the WhereClause to the
parenthesised OR of the `search(field_i, $searchTerm_i)` predicates in field
order and binds every `searchTerm_i` to the same term; for an empty field
list it leaves the WhereClause untouched, so with a nil options pointer the
built query carries no WHERE restriction beyond the collection filter
(QueryAll-like shape). -/
theorem claim_C8_search :
    ∀ (P T : Type) (c : String) (t : P) (fields : List String)
      (o : Option (QueryOptions P)) (raw : List (Option T)) (z : T),
      (fields ≠ [] →
        (searchOpts t fields o).WhereClause =
          "(" ++ String.intercalate " OR " (specSearchConds fields) ++ ")") ∧
      (∀ i, i < fields.length →
        paramsLookup (searchOpts t fields o) ("searchTerm" ++ toString i) =
          some t) ∧
      search c t fields o raw z =
        runQuery c (some (searchOpts t fields o)) raw z ∧
      (searchOpts t [] o).WhereClause = (o.getD {}).WhereClause ∧
      (search (T := T) c t [] none raw z).queryString =
        "from @all_docs where @metadata.\x27@collection\x27 = \x27" ++ c ++
          "\x27 LIMIT 0, 25" := by
  intro P T c t fields o raw z
  refine ⟨?_, ?_, rfl, ?_, ?_⟩
  · intro hf
    simp only [searchOpts]
    rw [if_pos]
    · rw [searchCondsAux_enumFrom]
      simp [specSearchConds, List.enum]
    · rw [searchCondsAux_length]
      simpa using List.length_pos.mpr hf
  · intro i hi
    have h := searchParamsAux_lookup t fields 0 i
      (((o.getD {}).Parameters).getD []) hi
    rw [Nat.zero_add] at h
    simp only [searchOpts]
    split <;> simpa [paramsLookup] using h
  · simp [searchOpts, searchCondsAux]
  · have e1 : (search (T := T) c t [] (none : Option (QueryOptions P)) raw
        z).queryString = specQueryString c (searchOpts t [] none) :=
      buildRQL_normalized c (searchOpts t [] none)
    rw [e1, specQueryString_plain c _ rfl rfl]
    simp only [String.append_assoc]
    congr 1

/-- C8 witness: two search fields produce the OR of two predicates, both
bound to the same term, and the searched term is retrievable for each
index. -/
theorem claim_C8_search_witness :
    (searchOpts "john" ["name", "email"]
      (none : Option (QueryOptions String))).WhereClause =
      "(search(name, $searchTerm0) OR search(email, $searchTerm1))" ∧
    paramsLookup (searchOpts "john" ["name", "email"]
      (none : Option (QueryOptions String))) "searchTerm1" = some "john" := by
  have h := claim_C8_search String Nat "users" "john" ["name", "email"] none
    ([] : List (Option Nat)) 0
  refine ⟨?_, ?_⟩
  · rw [h.1 (by decide)]
    decide
  · have h2 := h.2.1 1 (by decide)
    simpa using h2

/-- C9: the query-building helpers mutate the caller-supplied non-nil
options in place: they overwrite `WhereClause` and leave `Parameters`
allocated (non-nil) with the bound entries inserted, while `Skip`,
`OrderBy`, `OrderDesc` and `IncludeTotal` are left unchanged through the
whole call (including the `Take` normalization `Query` then applies). -/
theorem claim_C9_helper_frame :
    ∀ (P T : Type) (c f : String) (v lo hi t : P) (fields : List String)
      (o : QueryOptions P) (raw : List (Option T)) (z : T),
      ((runQuery c (some (queryByFieldOpts f v (some o))) raw
          z).finalOptions.Skip = o.Skip ∧
        (runQuery c (some (queryByFieldOpts f v (some o))) raw
          z).finalOptions.OrderBy = o.OrderBy ∧
        (runQuery c (some (queryByFieldOpts f v (some o))) raw
          z).finalOptions.OrderDesc = o.OrderDesc ∧
        (runQuery c (some (queryByFieldOpts f v (some o))) raw
          z).finalOptions.IncludeTotal = o.IncludeTotal ∧
        (runQuery c (some (queryByFieldOpts f v (some o))) raw
          z).finalOptions.WhereClause = f ++ " = $value" ∧
        (runQuery c (some (queryByFieldOpts f v (some o))) raw
          z).finalOptions.Parameters.isSome = true) ∧
      ((runQuery c (some (queryByRangeOpts f lo hi (some o))) raw
          z).finalOptions.Skip = o.Skip ∧
        (runQuery c (some (queryByRangeOpts f lo hi (some o))) raw
          z).finalOptions.OrderBy = o.OrderBy ∧
        (runQuery c (some (queryByRangeOpts f lo hi (some o))) raw
          z).finalOptions.OrderDesc = o.OrderDesc ∧
        (runQuery c (some (queryByRangeOpts f lo hi (some o))) raw
          z).finalOptions.IncludeTotal = o.IncludeTotal ∧
        (runQuery c (some (queryByRangeOpts f lo hi (some o))) raw
          z).finalOptions.WhereClause =
          f ++ " >= $minValue AND " ++ f ++ " <= $maxValue" ∧
        (runQuery c (some (queryByRangeOpts f lo hi (some o))) raw
          z).finalOptions.Parameters.isSome = true) ∧
      (fields ≠ [] →
        (runQuery c (some (searchOpts t fields (some o))) raw
          z).finalOptions.Skip = o.Skip ∧
        (runQuery c (some (searchOpts t fields (some o))) raw
          z).finalOptions.OrderBy = o.OrderBy ∧
        (runQuery c (some (searchOpts t fields (some o))) raw
          z).finalOptions.OrderDesc = o.OrderDesc ∧
        (runQuery c (some (searchOpts t fields (some o))) raw
          z).finalOptions.IncludeTotal = o.IncludeTotal ∧
        (runQuery c (some (searchOpts t fields (some o))) raw
          z).finalOptions.Parameters.isSome = true) := by
  intro P T c f v lo hi t fields o raw z
  exact ⟨⟨rfl, rfl, rfl, rfl, rfl, rfl⟩, ⟨rfl, rfl, rfl, rfl, rfl, rfl⟩,
    fun _ => searchOpts_fields_frame t fields o⟩

/-- C9 witness: a search over one field keeps the caller's `Skip` and
`OrderBy` intact. -/
theorem claim_C9_helper_frame_witness :
    (runQuery "users" (some (searchOpts "john" ["name"]
        (some ({ Skip := 7, OrderBy := "age" } : QueryOptions String))))
      ([] : List (Option Nat)) 0).finalOptions.Skip = 7 ∧
    (runQuery "users" (some (searchOpts "john" ["name"]
        (some ({ Skip := 7, OrderBy := "age" } : QueryOptions String))))
      ([] : List (Option Nat)) 0).finalOptions.OrderBy = "age" := by
  have h := (claim_C9_helper_frame String Nat "users" "f" "v" "lo" "hi"
    "john" ["name"] { Skip := 7, OrderBy := "age" } [] 0).2.2 (by decide)
  exact ⟨h.1, h.2.1⟩

/-- C10: `Query` mutates the caller-supplied non-nil options in place when
normalizing pagination: the caller observes `Take = 25` after supplying
`Take ≤ 0` and `Take = 1024` after supplying `Take > 1024`, and the
returned envelope echoes the normalized `Take` and the unmodified `Skip`. -/
theorem claim_C10_query_mutation :
    ∀ (P T : Type) (c : String) (o : QueryOptions P) (raw : List (Option T))
      (z : T),
      (runQuery c (some o) raw z).finalOptions.Take = normTake o.Take ∧
      (o.Take ≤ 0 → (runQuery c (some o) raw z).finalOptions.Take = 25) ∧
      (1024 < o.Take →
        (runQuery c (some o) raw z).finalOptions.Take = 1024) ∧
      (runQuery c (some o) raw z).result.Take = normTake o.Take ∧
      (runQuery c (some o) raw z).result.Skip = o.Skip ∧
      (runQuery c (some o) raw z).finalOptions.Skip = o.Skip := by
  intro P T c o raw z
  refine ⟨rfl, fun h => ?_, fun h => ?_, rfl, rfl, rfl⟩
  · show normTake o.Take = 25
    exact normTake_of_nonpos o.Take h
  · show normTake o.Take = 1024
    exact normTake_of_gt o.Take h

/-- C10 witness: `Take = -1` is observed as 25, `Take = 5000` as 1024, and
the envelope keeps the caller's `Skip = 3`. -/
theorem claim_C10_query_mutation_witness :
    (runQuery (P := Unit) "users" (some { Take := -1 })
      ([] : List (Option Nat)) 0).finalOptions.Take = 25 ∧
    (runQuery (P := Unit) "users" (some { Take := 5000 })
      ([some 1] : List (Option Nat)) 0).finalOptions.Take = 1024 ∧
    (runQuery (P := Unit) "users" (some { Skip := 3, Take := -1 })
      ([] : List (Option Nat)) 0).result.Skip = 3 := by
  exact ⟨(claim_C10_query_mutation Unit Nat "users" { Take := -1 } [] 0).2.1
      (by decide),
    (claim_C10_query_mutation Unit Nat "users" { Take := 5000 } [some 1]
      0).2.2.1 (by decide),
    (claim_C10_query_mutation Unit Nat "users" { Skip := 3, Take := -1 } []
      0).2.2.2.2.1⟩

end Raven
